import Mathlib

/-!
Shallow embedding of the rephole code-search backend (TypeScript source)
and proofs about its ingestion pipeline, storage adapters and retriever.

Each definition below is translated from a named source location:
  * `ContentStoreService.sanitizeContent`, `saveParent`, `getParents`
    (libs/knowledge-base/src/services/content-store.service.ts);
  * `EmbeddingsService.embedDocuments`
    (libs/ai-foundation/src/embeddings/embeddings.service.ts);
  * `VectorStoreService.upsert` / `validateUniqueIds` / `deleteDocuments` /
    `deleteByFilter` / `similaritySearch`
    (libs/knowledge-base/src/services/vector-store.service.ts);
  * `RepoUpdateProcessor.process` / `sanitizeMeta` / `isBinaryFile`
    (libs/ingestion/repo-rag/src/processors/repo-update.processor.ts);
  * `ParentChildRetrieverService.retrieve` / `retrieveChunks`
    (libs/retrieval-common/src/services/parent-child-retriever.service.ts);
  * `QueryService.normalizeK` / `search` / `searchChunks`
    (apps/api/src/queries/query.service.ts);
  * the duplicate-ID check at the end of `AstSplitterService.split`
    (libs/ingestion/ast-parser/src/services/ast-splitter.service.ts).

External collaborators (ChromaDB, Postgres/TypeORM, the OpenAI embedding
backend, git, the filesystem, tree-sitter) are modelled as explicit state
(lists of records) or as function parameters, following the contracts in
the specification.  JS strings are modelled as Lean `String`; JS numbers
as `ℚ`; JS objects of primitives as association lists where the *last*
binding of a key wins (the spread semantics).
-/

/-- Primitive metadata value: JS string / number / boolean as accepted by the
vector store (`string | number | boolean`). -/
inductive Prim where
  | str : String → Prim
  | num : ℚ → Prim
  | bool : Bool → Prim
deriving DecidableEq, Repr

/-- A JS value as it may appear in raw, user-supplied job `meta`: either a
primitive or one of the non-primitive shapes the sanitizer filters out
(`null`, `undefined`, nested object, array). -/
inductive JsVal where
  | prim : Prim → JsVal
  | nullv : JsVal
  | undef : JsVal
  | objv : JsVal
  | arrv : JsVal
deriving DecidableEq, Repr

/-- Lookup in a JS-object-as-association-list.  JS property assignment and
spread let the last binding of a key win, so we look the key up in the
reversed list. -/
def metaGet (m : List (String × Prim)) (k : String) : Option Prim :=
  m.reverse.lookup k

/-- The code points JS counts as whitespace (`\s` in a RegExp and
`String.prototype.trim`): tab, LF, VT, FF, CR, space, NBSP and the Unicode
space separators, line/paragraph separators, and the BOM. -/
def jsWhitespaceCodes : List Nat :=
  [0x09, 0x0A, 0x0B, 0x0C, 0x0D, 0x20, 0xA0, 0x1680,
   0x2000, 0x2001, 0x2002, 0x2003, 0x2004, 0x2005, 0x2006, 0x2007,
   0x2008, 0x2009, 0x200A, 0x2028, 0x2029, 0x202F, 0x205F, 0x3000, 0xFEFF]

/-- `c` is JS whitespace. -/
def isJsWs (c : Char) : Bool :=
  jsWhitespaceCodes.contains c.toNat

/-- JS `String.prototype.trim()`: strip leading and trailing JS whitespace. -/
def jsTrim (s : String) : String :=
  String.mk (((s.data.dropWhile isJsWs).reverse.dropWhile isJsWs).reverse)

/-- Characters removed by `ContentStoreService.sanitizeContent`'s second
replace, the regex class `[\x00-\x08\x0B\x0C\x0E-\x1F\x7F]`. -/
def inCtlClass (c : Char) : Bool :=
  (c.toNat ≤ 0x08) || (c.toNat == 0x0B) || (c.toNat == 0x0C) ||
    (0x0E ≤ c.toNat && c.toNat ≤ 0x1F) || (c.toNat == 0x7F)

/-- `ContentStoreService.sanitizeContent` (content-store.service.ts:42-61):
if the content contains a NUL it first strips every `\u0000`
(`content.replace(/\u0000/g, '')`), then strips the control-character class
`[\x00-\x08\x0B\x0C\x0E-\x1F\x7F]`. -/
def sanitizeContent (content : String) : String :=
  let content :=
    if content.data.contains (Char.ofNat 0) then
      String.mk (content.data.filter (fun c => !(c.toNat == 0)))
    else content
  String.mk (content.data.filter (fun c => !(inCtlClass c)))

/-- The NUL pre-pass is absorbed by the control-class filter: `sanitizeContent`
keeps exactly the characters outside the regex class. -/
theorem sanitizeContent_eq_filter (s : String) :
    sanitizeContent s = String.mk (s.data.filter (fun c => !(inCtlClass c))) := by
  unfold sanitizeContent
  by_cases h : s.data.contains (Char.ofNat 0)
  · simp only [h, if_true]
    congr 1
    rw [List.filter_filter]
    apply List.filter_congr
    intro c _
    by_cases hc : c.toNat = 0
    · simp [inCtlClass, hc]
    · simp [hc]
  · have h' : ¬ (Char.ofNat 0 ∈ s.data) := by simpa using h
    simp [h']

/-- The removal class exactly as claim C6 words it: U+0000 and the C0 control
characters (U+0000–U+001F) other than LF (0x0A), CR (0x0D) and tab (0x09).
Written from the spec's words, to be compared with the source's class. -/
def claimC6Removed (c : Char) : Bool :=
  (c.toNat == 0) ||
    (c.toNat ≤ 0x1F && !(c.toNat == 0x09) && !(c.toNat == 0x0A) && !(c.toNat == 0x0D))

/-- The sanitization claim C6 describes: remove exactly `claimC6Removed`
characters and leave every other character unchanged. -/
def claimC6Sanitize (s : String) : String :=
  String.mk (s.data.filter (fun c => !(claimC6Removed c)))

/-- The removal class of the amended claim C6: U+0000, the C0 controls other
than LF/CR/tab, and additionally DEL (U+007F). -/
def amendedC6Removed (c : Char) : Bool :=
  claimC6Removed c || (c.toNat == 0x7F)

/-- C6 counterexample: on the one-character string U+007F (DEL) the source's
`sanitizeContent` removes the character, while the claimed sanitization (C0
controls only) would leave it unchanged — so the claim as stated is false. -/
theorem sanitizeContent_del_counterexample :
    sanitizeContent (String.mk [Char.ofNat 0x7F]) = "" ∧
      claimC6Sanitize (String.mk [Char.ofNat 0x7F]) = String.mk [Char.ofNat 0x7F] ∧
      sanitizeContent (String.mk [Char.ofNat 0x7F]) ≠
        claimC6Sanitize (String.mk [Char.ofNat 0x7F]) := by
  refine ⟨rfl, rfl, ?_⟩
  decide

/-- C6 amended: `sanitizeContent` removes exactly U+0000, the C0 control
characters other than LF (0x0A), CR (0x0D) and tab (0x09), and DEL (0x7F),
and leaves every other character of the content unchanged (in order). -/
theorem sanitizeContent_removes_exactly_amended (s : String) :
    sanitizeContent s = String.mk (s.data.filter (fun c => !(amendedC6Removed c))) := by
  rw [sanitizeContent_eq_filter]
  congr 1
  apply List.filter_congr
  intro c _
  congr 1
  rw [Bool.eq_iff_iff]
  simp only [inCtlClass, claimC6Removed, amendedC6Removed, Bool.or_eq_true,
    Bool.and_eq_true, Bool.not_eq_true', decide_eq_true_eq, beq_iff_eq,
    beq_eq_false_iff_ne]
  omega

/-- C9: the blob-store content sanitization is idempotent — sanitizing an
already-sanitized string is a no-op. -/
theorem sanitizeContent_idempotent (s : String) :
    sanitizeContent (sanitizeContent s) = sanitizeContent s := by
  rw [sanitizeContent_eq_filter s, sanitizeContent_eq_filter]
  simp [List.filter_filter]

/-- Replacement for a leading or trailing whitespace run matched by the
alternatives `^\s+` / `\s+$` of the sanitize regex in
`EmbeddingsService.embedDocuments`: the replacement callback returns a space
when the whole match is a single `\n`, and the empty string otherwise. -/
def replaceEdgeRun (run : List Char) : List Char :=
  if run = [Char.ofNat 0x0A] then [Char.ofNat 0x20] else []

/-- Replacement for the third alternative `\n` of the sanitize regex: each
individually matched newline becomes a space. -/
def nlToSpace (c : Char) : Char :=
  if c = Char.ofNat 0x0A then Char.ofNat 0x20 else c

/-- The global replace `text.replace(/^\s+|\s+$|\n/g, m => m === '\n' ? ' ' : '')`
from `EmbeddingsService.embedDocuments` (embeddings.service.ts:38-40).
Scanning left to right: the maximal leading whitespace run is matched by
`^\s+`; if the rest is empty the string was all whitespace and that one match
is the whole story.  Otherwise the maximal trailing whitespace run is matched
by `\s+$` at its first position (the only position whose tail is all
whitespace), and in between every `\n` is matched individually.  Each edge
run is replaced by `replaceEdgeRun`, each inner newline by a space. -/
def embedSanitizeList (l : List Char) : List Char :=
  let w := l.takeWhile isJsWs
  let rest := l.dropWhile isJsWs
  if rest.isEmpty then replaceEdgeRun w
  else
    let t := (rest.reverse.takeWhile isJsWs).reverse
    let core := (rest.reverse.dropWhile isJsWs).reverse
    replaceEdgeRun w ++ core.map nlToSpace ++ replaceEdgeRun t

/-- String version of `embedSanitizeList`. -/
def embedSanitize (s : String) : String :=
  String.mk (embedSanitizeList s.data)

/-- `EmbeddingsService.estimateTokens`: `Math.ceil(text.length / 4)`. -/
def estimateTokens (s : String) : Nat :=
  (s.length + 3) / 4

/-- `EmbeddingsService.truncateToTokenLimit`: keep the first
`maxTokens * 4` characters when over the limit. -/
def truncateToTokenLimit (s : String) (maxTokens : Nat) : String :=
  if estimateTokens s ≤ maxTokens then s
  else String.mk (s.data.take (maxTokens * 4))

/-- One iteration of the processing loop in
`EmbeddingsService.embedDocuments` (embeddings.service.ts:29-55): skip
null/undefined and the empty string (`if (!text) continue`), sanitize with
the regex, skip results of length zero, and truncate past 8000 estimated
tokens. -/
def processText (t : Option String) : Option String :=
  match t with
  | none => none
  | some text =>
    if text = "" then none
    else
      let processed := embedSanitize text
      if processed.length = 0 then none
      else if 8000 < estimateTokens processed then
        some (truncateToTokenLimit processed 8000)
      else some processed

/-- `EmbeddingsService.embedDocuments` over a pure backend model.  The OpenAI
backend is the black box `embed(text[]) -> vector[]` returning one vector per
input in order, modelled as `backend` applied to each processed text.  An
empty input list, and a list whose every entry is dropped by `processText`,
return `[]` without consulting the backend. -/
def embedDocuments (backend : String → List ℚ) (texts : List (Option String)) :
    List (List ℚ) :=
  if texts.isEmpty then []
  else
    let processedTexts := texts.filterMap processText
    if processedTexts.isEmpty then []
    else processedTexts.map backend

/-- The sanitization claim C5 words: strip leading/trailing whitespace, then
replace the (now internal) newlines with spaces.  Written from the spec's
words, to be compared with the source's regex. -/
def claimC5Sanitize (s : String) : String :=
  String.mk ((jsTrim s).data.map nlToSpace)

/-- C5: evaluation at the failing input.  The one-element input `["\n"]` is
whitespace-only, so under the claimed sanitization it is dropped and
`embedDocuments` would return `[]`; the source's single regex turns the
whole-string match `"\n"` into `" "`, keeps it, and returns one vector —
contradicting both the claim and the code's own comment that the regex
equals `text.replace(/\n/g, ' ').trim()`. -/
theorem embedDocuments_single_newline_bug :
    embedDocuments (fun _ => [1]) [some (String.mk [Char.ofNat 0x0A])] = [[1]] ∧
      embedSanitize (String.mk [Char.ofNat 0x0A]) = " " ∧
      claimC5Sanitize (String.mk [Char.ofNat 0x0A]) = "" := by
  refine ⟨?_, rfl, rfl⟩
  rfl

/-- First-occurrence deduplication: the insertion order of a JS `Set` built by
iterating a list.  `new Set(xs)` keeps each element once, at the position of
its first occurrence. -/
def dedupFirst {α : Type} [DecidableEq α] : List α → List α
  | [] => []
  | a :: rest => a :: (dedupFirst rest).filter (fun b => decide (b ≠ a))

theorem mem_dedupFirst {α : Type} [DecidableEq α] (l : List α) (a : α) :
    a ∈ dedupFirst l ↔ a ∈ l := by
  induction l with
  | nil => simp [dedupFirst]
  | cons b rest ih =>
    simp only [dedupFirst, List.mem_cons, List.mem_filter, ih,
      decide_eq_true_eq]
    constructor
    · rintro (rfl | ⟨h, _⟩)
      · exact Or.inl rfl
      · exact Or.inr h
    · rintro (rfl | h)
      · exact Or.inl rfl
      · by_cases hb : a = b
        · exact Or.inl hb
        · exact Or.inr ⟨h, hb⟩

theorem length_dedupFirst_le {α : Type} [DecidableEq α] (l : List α) :
    (dedupFirst l).length ≤ l.length := by
  induction l with
  | nil => simp [dedupFirst]
  | cons b rest ih =>
    simp only [dedupFirst, List.length_cons]
    exact Nat.succ_le_succ (le_trans (List.length_filter_le _ _) ih)

theorem dedupFirst_eq_self_of_nodup {α : Type} [DecidableEq α] (l : List α) :
    l.Nodup → dedupFirst l = l := by
  induction l with
  | nil => intro _; rfl
  | cons b rest ih =>
    intro h
    have hb : b ∉ rest := (List.nodup_cons.mp h).1
    rw [dedupFirst, ih (List.nodup_cons.mp h).2]
    congr 1
    apply List.filter_eq_self.mpr
    intro a ha
    simp only [decide_eq_true_eq]
    exact fun hab => hb (hab ▸ ha)

theorem nodup_of_length_dedupFirst {α : Type} [DecidableEq α] (l : List α) :
    (dedupFirst l).length = l.length → l.Nodup := by
  induction l with
  | nil => intro _; exact List.nodup_nil
  | cons b rest ih =>
    intro h
    rw [dedupFirst] at h
    simp only [List.length_cons, Nat.succ.injEq] at h
    have h1 := List.length_filter_le (fun x => decide (x ≠ b)) (dedupFirst rest)
    have h2 := length_dedupFirst_le rest
    have hdlen : (dedupFirst rest).length = rest.length := by omega
    have hflen : ((dedupFirst rest).filter (fun x => decide (x ≠ b))).length =
        (dedupFirst rest).length := by omega
    have hfeq : (dedupFirst rest).filter (fun x => decide (x ≠ b)) = dedupFirst rest :=
      List.filter_eq_self.mpr (List.filter_length_eq_length.mp hflen)
    rw [List.nodup_cons]
    constructor
    · intro hmem
      have hmemd : b ∈ dedupFirst rest := (mem_dedupFirst rest b).mpr hmem
      have := List.filter_eq_self.mp hfeq b hmemd
      simp at this
    · exact ih hdlen

theorem length_dedupFirst_ne_iff {α : Type} [DecidableEq α] (l : List α) :
    l.length ≠ (dedupFirst l).length ↔ ¬ l.Nodup := by
  constructor
  · intro h hn
    exact h (by rw [dedupFirst_eq_self_of_nodup l hn])
  · intro hn h
    exact hn (nodup_of_length_dedupFirst l h.symm)

def nonFirstOccAux {α : Type} [DecidableEq α] (seen : List α) : List α → List α
  | [] => []
  | a :: rest =>
    (if seen.contains a then [a] else []) ++ nonFirstOccAux (seen ++ [a]) rest

theorem mem_nonFirstOccAux {α : Type} [DecidableEq α] (l : List α) (seen : List α) (a : α) :
    a ∈ nonFirstOccAux seen l ↔ (a ∈ seen ∧ a ∈ l) ∨ 2 ≤ l.count a := by
  induction l generalizing seen with
  | nil => simp [nonFirstOccAux]
  | cons b rest ih =>
    by_cases hab : a = b
    · subst hab
      by_cases hseen : a ∈ seen
      · by_cases hr : a ∈ rest
        · have hcc : 0 < rest.count a := List.count_pos_iff.mpr hr
          simp [nonFirstOccAux, ih, hseen, hr, List.count_cons, List.mem_append]
        · simp [nonFirstOccAux, ih, hseen, hr, List.count_cons, List.mem_append]
      · by_cases hr : a ∈ rest
        · have hcc : 0 < rest.count a := List.count_pos_iff.mpr hr
          simp [nonFirstOccAux, ih, hseen, hr, List.count_cons, List.mem_append]
        · have hcc : rest.count a = 0 := List.count_eq_zero.mpr hr
          simp [nonFirstOccAux, ih, hseen, hr, List.count_cons, List.mem_append, hcc]
    · have hba : ¬ (b = a) := fun h => hab h.symm
      by_cases hseen : b ∈ seen
      · simp [nonFirstOccAux, ih, hseen, hab, hba, List.count_cons, List.mem_append]
      · simp [nonFirstOccAux, ih, hseen, hab, hba, List.count_cons, List.mem_append]

/-- A vector record as upserted into / returned by the vector store adapter:
primary key `id`, dense `vector`, raw `content` (the chunk text, Chroma's
`document`), and flat primitive `metadata`. -/
structure VectorRecord where
  id : String
  content : String
  vector : List ℚ
  metadata : List (String × Prim)
deriving DecidableEq, Repr

/-- The vector collection, modelled as the list of currently stored records
in insertion order. -/
abbrev VStore := List VectorRecord

/-- Upsert of a single record into the collection: replace the record with
the same primary key when present, append otherwise (ChromaDB `upsert`
semantics, record by record). -/
def upsertOne (store : VStore) (r : VectorRecord) : VStore :=
  if store.any (fun s => s.id == r.id) then
    store.map (fun s => if s.id == r.id then r else s)
  else store ++ [r]

/-- Upsert one batch (one `collection.upsert` call) into the collection. -/
def applyBatch (store : VStore) (batch : List VectorRecord) : VStore :=
  batch.foldl upsertOne store

/-- The structured error raised by `VectorStoreService.validateUniqueIds`
(vector-store.service.ts:336-359): it names the offending (duplicated) IDs. -/
structure DuplicateIdError where
  duplicateIds : List String
deriving DecidableEq, Repr

/-- The duplicate IDs computed by `validateUniqueIds` and by the chunker's
duplicate check: `ids.filter((id, idx) => ids.indexOf(id) !== idx)` keeps the
occurrences preceded by an equal element (`nonFirstOccAux`), and
`[...new Set(duplicates)]` deduplicates them keeping first occurrences. -/
def duplicateIdsOf (ids : List String) : List String :=
  dedupFirst (nonFirstOccAux [] ids)

/-- An id is listed by `duplicateIdsOf` exactly when it occurs at least twice
in the input. -/
theorem mem_duplicateIdsOf (ids : List String) (a : String) :
    a ∈ duplicateIdsOf ids ↔ 2 ≤ ids.count a := by
  unfold duplicateIdsOf
  rw [mem_dedupFirst, mem_nonFirstOccAux]
  simp

/-- `VectorStoreService.upsert` (vector-store.service.ts:97-134): first
`validateUniqueIds` — if the batch has duplicate IDs, throw the structured
error listing them before any write; otherwise slice into batches of
`batchSize` and upsert each slice. -/
def upsert (batchSize : Nat) (store : VStore) (records : List VectorRecord) :
    Except DuplicateIdError VStore :=
  let ids := records.map (fun r => r.id)
  if ids.length ≠ (dedupFirst ids).length then
    Except.error ⟨duplicateIdsOf ids⟩
  else
    Except.ok ((List.toChunks batchSize records).foldl applyBatch store)

/-- `VectorStoreService.deleteDocuments` (vector-store.service.ts:291-297):
delete by primary key; the empty id list returns without calling the store. -/
def deleteDocuments (ids : List String) (store : VStore) : VStore :=
  if ids.isEmpty then store
  else store.filter (fun r => !(ids.contains r.id))

/-- A record matches a flat filter when every key/value pair of the filter
equals the record's metadata at that key (zero keys = no filter, one key =
equality, several keys = conjunction — spec §4.4). -/
def matchesFilter (filter : List (String × Prim)) (r : VectorRecord) : Bool :=
  filter.all (fun kv => metaGet r.metadata kv.1 == some kv.2)

/-- `VectorStoreService.deleteByFilter` (vector-store.service.ts:303-326):
an empty filter logs a warning and returns without touching the collection;
otherwise the matching records are deleted. -/
def deleteByFilter (filter : List (String × Prim)) (store : VStore) : VStore :=
  if filter.isEmpty then store
  else store.filter (fun r => !(matchesFilter filter r))

/-- `VectorStoreService.similaritySearch` (vector-store.service.ts:164-243)
over the store model: the ANN index returns up to `topK` records matching the
filter, in relevance order; the model takes store order as relevance order. -/
def similaritySearch (store : VStore) (topK : Nat)
    (filter : List (String × Prim)) : List VectorRecord :=
  (store.filter (matchesFilter filter)).take topK

/-- A code chunk as emitted by `AstSplitterService.split`
(ast-splitter.service.ts): canonical id `filePath:name:nodeType:L{line}`,
grammar node type, expanded content, 1-indexed line bounds. -/
structure CodeChunk where
  id : String
  type : String
  content : String
  startLine : Nat
  endLine : Nat
deriving DecidableEq, Repr

/-- The duplicate-ID check at the end of `AstSplitterService.split`
(ast-splitter.service.ts:304-319): compute the chunk ids; when they are not
pairwise distinct, log a warning naming the offending ids; in either case
return the chunks unchanged.  The first component is the logged warning
(`some` offending ids, or `none`), the second the returned chunks. -/
def splitDuplicateCheck (chunks : List CodeChunk) :
    Option (List String) × List CodeChunk :=
  let chunkIds := chunks.map (fun c => c.id)
  (if chunkIds.length ≠ (dedupFirst chunkIds).length then
      some (duplicateIdsOf chunkIds)
    else none,
   chunks)

/-- C10: calling `deleteByFilter` with an empty filter (zero keys) performs no
delete against the backing store and returns normally — the collection is
unchanged, so a mass wipe through an accidentally empty filter is
impossible. -/
theorem deleteByFilter_empty_filter_noop (store : VStore) :
    deleteByFilter [] store = store := rfl

/-- C8: when the chunks produced for one file contain duplicate IDs, the
chunker logs exactly the offending IDs (those occurring at least twice) but
still returns the chunks unchanged — no hard failure; and when a batch with
duplicate IDs reaches the vector store adapter, `upsert` raises the
structured `DuplicateIdError` listing exactly the offending IDs instead of
producing an upserted store. -/
theorem duplicate_ids_logged_then_rejected
    (chunks : List CodeChunk) (records : List VectorRecord)
    (batchSize : Nat) (store : VStore)
    (hchunks : ¬ (chunks.map (fun c => c.id)).Nodup)
    (hrecords : ¬ (records.map (fun r => r.id)).Nodup) :
    (splitDuplicateCheck chunks).2 = chunks ∧
      (∃ w, (splitDuplicateCheck chunks).1 = some w ∧
        ∀ i, i ∈ w ↔ 2 ≤ (chunks.map (fun c => c.id)).count i) ∧
      (∃ e, upsert batchSize store records = Except.error e ∧
        ∀ i, i ∈ e.duplicateIds ↔ 2 ≤ (records.map (fun r => r.id)).count i) := by
  refine ⟨rfl, ⟨duplicateIdsOf (chunks.map (fun c => c.id)), ?_, ?_⟩,
    ⟨⟨duplicateIdsOf (records.map (fun r => r.id))⟩, ?_, ?_⟩⟩
  · simp only [splitDuplicateCheck]
    rw [if_pos ((length_dedupFirst_ne_iff _).mpr hchunks)]
  · intro i
    exact mem_duplicateIdsOf _ i
  · simp only [upsert]
    rw [if_pos ((length_dedupFirst_ne_iff _).mpr hrecords)]
  · intro i
    exact mem_duplicateIdsOf _ i

/-- C8 witness: two chunks and two records sharing an id trigger the warning
and the structured upsert rejection. -/
theorem duplicate_ids_logged_then_rejected_witness :
    (splitDuplicateCheck
        [⟨"f.ts:a:function_declaration:L1", "function_declaration", "x", 1, 1⟩,
         ⟨"f.ts:a:function_declaration:L1", "function_declaration", "y", 1, 1⟩]).2 =
      [⟨"f.ts:a:function_declaration:L1", "function_declaration", "x", 1, 1⟩,
       ⟨"f.ts:a:function_declaration:L1", "function_declaration", "y", 1, 1⟩] ∧
      (∃ w, (splitDuplicateCheck
        [⟨"f.ts:a:function_declaration:L1", "function_declaration", "x", 1, 1⟩,
         ⟨"f.ts:a:function_declaration:L1", "function_declaration", "y", 1, 1⟩]).1 = some w ∧
        ∀ i, i ∈ w ↔ 2 ≤ (([⟨"f.ts:a:function_declaration:L1", "function_declaration", "x", 1, 1⟩,
         ⟨"f.ts:a:function_declaration:L1", "function_declaration", "y", 1, 1⟩] : List CodeChunk).map
           (fun c => c.id)).count i) ∧
      (∃ e, upsert 1000 []
          [⟨"c1", "x", [], []⟩, ⟨"c1", "y", [], []⟩] = Except.error e ∧
        ∀ i, i ∈ e.duplicateIds ↔
          2 ≤ (([⟨"c1", "x", [], []⟩, ⟨"c1", "y", [], []⟩] : List VectorRecord).map
            (fun r => r.id)).count i) :=
  duplicate_ids_logged_then_rejected _ _ 1000 [] (by decide) (by decide)

/-- The reserved metadata field names of `RepoUpdateProcessor.sanitizeMeta`
(repo-update.processor.ts:440-456): user meta must not shadow these. -/
def reservedFields : List String :=
  ["id", "category", "repositoryId", "repoId", "workspaceId", "userId",
   "timestamp", "filePath", "fileType", "chunkIndex", "chunkType",
   "parentId", "functionName", "startLine", "endLine"]

/-- `RepoUpdateProcessor.sanitizeMeta` (repo-update.processor.ts:432-496):
drop reserved keys (with a warning) and every non-primitive value (nested
object, array, null, undefined); keep the primitive survivors in order. -/
def sanitizeMeta (meta : List (String × JsVal)) : List (String × Prim) :=
  meta.filterMap (fun kv =>
    if reservedFields.contains kv.1 then none
    else
      match kv.2 with
      | JsVal.prim p => some (kv.1, p)
      | _ => none)

/-- The binary-extension blocklist of `RepoUpdateProcessor.isBinaryFile`
(repo-update.processor.ts:291-353). -/
def binaryExtensions : List String :=
  [".png", ".jpg", ".jpeg", ".gif", ".bmp", ".ico", ".svg", ".webp", ".tiff",
   ".mp4", ".avi", ".mov", ".wmv", ".flv", ".mkv",
   ".mp3", ".wav", ".ogg", ".flac", ".aac",
   ".zip", ".tar", ".gz", ".rar", ".7z", ".bz2",
   ".exe", ".dll", ".so", ".dylib", ".bin", ".class", ".pyc", ".o", ".a",
   ".pdf", ".doc", ".docx", ".xls", ".xlsx", ".ppt", ".pptx",
   ".ttf", ".otf", ".woff", ".woff2", ".eot",
   ".db", ".sqlite", ".sqlite3",
   ".wasm", ".lock"]

/-- Index of the last occurrence of `c` in `l`, scanning left to right and
remembering the latest hit (JS `String.prototype.lastIndexOf`, minus the
`-1`-for-absent convention, which the callers handle). -/
def lastIndexOfCharAux (l : List Char) (c : Char) (i : Nat) (acc : Option Nat) :
    Option Nat :=
  match l with
  | [] => acc
  | x :: rest => lastIndexOfCharAux rest c (i + 1) (if x = c then some i else acc)

/-- Last index of `c` in the string, if any. -/
def lastIndexOfChar (s : String) (c : Char) : Option Nat :=
  lastIndexOfCharAux s.data c 0 none

/-- JS `toLowerCase` on the ASCII range. -/
def jsToLower (s : String) : String :=
  String.mk (s.data.map Char.toLower)

/-- `RepoUpdateProcessor.isBinaryFile` (repo-update.processor.ts:290-357):
`filePath.toLowerCase().substring(filePath.lastIndexOf('.'))` is looked up in
the blocklist; a path without a dot makes `lastIndexOf` return `-1` and
`substring(-1)` the whole (lowercased) string. -/
def isBinaryFile (filePath : String) : Bool :=
  let lower := jsToLower filePath
  let ext :=
    match lastIndexOfChar filePath (Char.ofNat 0x2E) with
    | some i => String.mk (lower.data.drop i)
    | none => lower
  binaryExtensions.contains ext

/-- Node `path.extname`, used for the `fileType` metadata field: the suffix of
the basename from its last dot, or the empty string when the basename has no
dot or starts with its only dot. -/
def extName (file : String) : String :=
  let base := (file.data.reverse.takeWhile (fun c => c ≠ Char.ofNat 0x2F)).reverse
  match lastIndexOfCharAux base (Char.ofNat 0x2E) 0 none with
  | some i => if i = 0 then "" else String.mk (base.drop i)
  | none => ""

/-- The `functionName` derivation of the processor
(repo-update.processor.ts:192-193): `chunk.id.split(':')[1] || 'anonymous'`
— the second segment of the chunk id, or `"anonymous"` when absent or
empty. -/
def functionNameOf (chunkId : String) : String :=
  match (chunkId.splitOn ":")[1]? with
  | some s => if s = "" then "anonymous" else s
  | none => "anonymous"

/-- `userId || 'system'` from the processor: empty or missing user ids fall
back to `"system"`. -/
def userIdOrSystem (userId : Option String) : String :=
  match userId with
  | some s => if s = "" then "system" else s
  | none => "system"

/-- The `baseMetadata` object built per chunk by `RepoUpdateProcessor.process`
(repo-update.processor.ts:199-216), in source field order. -/
def baseMetadataList (chunk : CodeChunk) (idx : Nat) (file stateId : String)
    (userId : Option String) (timestamp : String) : List (String × Prim) :=
  [("id", Prim.str chunk.id),
   ("category", Prim.str "repository"),
   ("workspaceId", Prim.str "workspace"),
   ("userId", Prim.str (userIdOrSystem userId)),
   ("timestamp", Prim.str timestamp),
   ("filePath", Prim.str file),
   ("fileType", Prim.str (extName file)),
   ("chunkIndex", Prim.num (idx : ℚ)),
   ("chunkType", Prim.str chunk.type),
   ("parentId", Prim.str file),
   ("repositoryId", Prim.str stateId),
   ("functionName", Prim.str (functionNameOf chunk.id)),
   ("startLine", Prim.num (chunk.startLine : ℚ)),
   ("endLine", Prim.num (chunk.endLine : ℚ))]

/-- The metadata of one stored record
(repo-update.processor.ts:220-228): the spread
`{...baseMetadata, ...sanitizedMeta, id, category, repositoryId, repoId}`,
modelled as list concatenation under last-binding-wins lookup (`metaGet`). -/
def chunkMetadata (sanitizedMeta : List (String × Prim)) (chunk : CodeChunk)
    (idx : Nat) (file repoId stateId : String) (userId : Option String)
    (timestamp : String) : List (String × Prim) :=
  baseMetadataList chunk idx file stateId userId timestamp ++ sanitizedMeta ++
    [("id", Prim.str chunk.id),
     ("category", Prim.str "repository"),
     ("repositoryId", Prim.str stateId),
     ("repoId", Prim.str repoId)]

/-- The per-file record mapping of the processor
(repo-update.processor.ts:189-236): one record per semantic chunk at its
0-based `chunkIndex`; the vector is the embedding returned for the chunk's
content (the backend contract: one vector per input, in order). -/
def buildRecordsAux (embed : String → List ℚ)
    (sanitizedMeta : List (String × Prim)) (file repoId stateId : String)
    (userId : Option String) (timestamp : String) :
    Nat → List CodeChunk → List VectorRecord
  | _, [] => []
  | idx, c :: rest =>
    { id := c.id, content := c.content, vector := embed c.content,
      metadata := chunkMetadata sanitizedMeta c idx file repoId stateId userId
        timestamp } ::
      buildRecordsAux embed sanitizedMeta file repoId stateId userId timestamp
        (idx + 1) rest

/-- A content blob row (`content_blobs` table): primary key `id` (the file
path), sanitized full `content`, owning `repoId`, and free-form metadata. -/
structure ContentBlob where
  id : String
  content : String
  repoId : String
  metadata : List (String × Prim)
deriving DecidableEq, Repr

/-- The blob store, as the list of rows of the `content_blobs` table in
physical (insertion) order. -/
abbrev CStore := List ContentBlob

/-- `ContentStoreService.saveParent` (part_006:39-66): sanitize the content,
then upsert the row keyed on `id`. -/
def saveParent (cstore : CStore) (id content repoId : String)
    (metadata : List (String × Prim)) : CStore :=
  let blob : ContentBlob := ⟨id, sanitizeContent content, repoId, metadata⟩
  if cstore.any (fun b => b.id == id) then
    cstore.map (fun b => if b.id == id then blob else b)
  else cstore ++ [blob]

/-- `ContentStoreService.getParents`: `repo.findBy({ id: In(ids) })` — the
rows whose id is among the requested ids, in table order (the SQL query has
no ORDER BY, so the result order is the store's, not the ids'). -/
def getParents (cstore : CStore) (ids : List String) : CStore :=
  cstore.filter (fun b => ids.contains b.id)

/-- Repository state row (`RepoStateEntity`). -/
structure RepoState where
  id : String
  repoUrl : String
  localPath : String
  lastProcessedCommit : Option String
deriving DecidableEq, Repr

/-- The diff classes returned by `GitService.getChangedFiles`. -/
structure Changes where
  added : List String
  modified : List String
  deleted : List String
  renamed : List String
deriving DecidableEq, Repr

/-- The worker's external collaborators, as pure functions: the filesystem
read (`fs.readFileSync`, `none` = read failure), the AST splitter, the
embedding backend (one vector per chunk content), the job's timestamp, and
the vector store batch size. -/
structure WorkerEnv where
  readFile : String → Option String
  split : String → String → List CodeChunk
  embed : String → List ℚ
  timestamp : String
  batchSize : Nat

/-- The storage state a job reads and writes: the vector collection, the
content-blob table and the repo-state row. -/
structure SystemState where
  vstore : VStore
  cstore : CStore
  repoState : RepoState
deriving DecidableEq, Repr

/-- The job outcome: the `'No changes detected'` short-circuit return, or a
completed run. -/
inductive ProcessResult where
  | noChanges : ProcessResult
  | completed : ProcessResult
deriving DecidableEq, Repr

/-- The per-file body of the processing loop in `RepoUpdateProcessor.process`
(repo-update.processor.ts:130-256): skip binary extensions; skip unreadable
files; save the parent blob; split; drop whitespace-only chunks; skip the
file when no chunks remain (the blob stays written); build the records and
upsert them (a duplicate-ID batch fails the job). -/
def processFile (env : WorkerEnv) (repoId : String) (userId : Option String)
    (stateId : String) (sanitizedMeta : List (String × Prim))
    (acc : VStore × CStore) (file : String) :
    Except DuplicateIdError (VStore × CStore) :=
  if isBinaryFile file then Except.ok acc
  else
    match env.readFile file with
    | none => Except.ok acc
    | some content =>
      let cstore := saveParent acc.2 file content repoId sanitizedMeta
      let allChunks := env.split file content
      let semanticChunks :=
        allChunks.filter (fun c => !(c.content == "") && !(jsTrim c.content == ""))
      if semanticChunks.isEmpty then Except.ok (acc.1, cstore)
      else
        let records := buildRecordsAux env.embed sanitizedMeta file repoId
          stateId userId env.timestamp 0 semanticChunks
        match upsert env.batchSize acc.1 records with
        | Except.error e => Except.error e
        | Except.ok vs => Except.ok (vs, cstore)

/-- `RepoUpdateProcessor.process` (repo-update.processor.ts:75-284) after the
git calls: given the diff `changes` and the resolved `currentCommit`,
sanitize the job meta; if `added` and `modified` are both empty, return
`'No changes detected'` immediately (lines 110-113 — before the deletion
step); otherwise delete the `deleted` paths by vector id
(`deleteDocuments(changes.deleted)`, line 120), process each added/modified
file, and finally persist `lastProcessedCommit := currentCommit`.
`changes.renamed` is never consulted. -/
def process (env : WorkerEnv) (repoId : String) (userId : Option String)
    (meta : List (String × JsVal)) (changes : Changes) (currentCommit : String)
    (st : SystemState) : Except DuplicateIdError (ProcessResult × SystemState) :=
  let sanitizedMeta := sanitizeMeta meta
  if changes.added.isEmpty && changes.modified.isEmpty then
    Except.ok (ProcessResult.noChanges, st)
  else
    let vstore :=
      if !(changes.deleted.isEmpty) then deleteDocuments changes.deleted st.vstore
      else st.vstore
    let filesToProcess := changes.added ++ changes.modified
    match filesToProcess.foldlM
        (processFile env repoId userId st.repoState.id sanitizedMeta)
        (vstore, st.cstore) with
    | Except.error e => Except.error e
    | Except.ok (vs, cs) =>
      Except.ok (ProcessResult.completed,
        { vstore := vs, cstore := cs,
          repoState :=
            { st.repoState with lastProcessedCommit := some currentCommit } })

/-- Association lookup over a concatenation: the left part is consulted
first. -/
theorem lookup_append_first (l1 l2 : List (String × Prim)) (k : String) :
    (l1 ++ l2).lookup k =
      match l1.lookup k with
      | some v => some v
      | none => l2.lookup k := by
  induction l1 with
  | nil => simp [List.lookup]
  | cons p rest ih =>
    rcases p with ⟨k1, v1⟩
    by_cases h : k = k1
    · simp [List.lookup, h]
    · have hbeq : (k == k1) = false := by
        simpa using h
      simp [List.lookup, hbeq, ih]

/-- Spread semantics: in `{...m1, ...m2}` the later object `m2` wins. -/
theorem metaGet_append (m1 m2 : List (String × Prim)) (k : String) :
    metaGet (m1 ++ m2) k =
      match metaGet m2 k with
      | some v => some v
      | none => metaGet m1 k := by
  unfold metaGet
  rw [List.reverse_append, lookup_append_first]

/-- A key bound by no pair of the list looks up to `none`. -/
theorem lookup_eq_none_of_keys_ne (l : List (String × Prim)) (k : String)
    (h : ∀ p ∈ l, p.1 ≠ k) : l.lookup k = none := by
  induction l with
  | nil => rfl
  | cons p rest ih =>
    rcases p with ⟨k1, v1⟩
    have h1 : k1 ≠ k := h (k1, v1) (by simp)
    have hbeq : (k == k1) = false := by
      simp only [beq_eq_false_iff_ne]
      exact fun he => h1 he.symm
    simp only [List.lookup, hbeq]
    exact ih (fun p hp => h p (by simp [hp]))

/-- Every key surviving `sanitizeMeta` is outside the reserved set. -/
theorem sanitizeMeta_keys_not_reserved (meta : List (String × JsVal)) :
    ∀ p ∈ sanitizeMeta meta, p.1 ∉ reservedFields := by
  intro p hp hmem
  unfold sanitizeMeta at hp
  rw [List.mem_filterMap] at hp
  obtain ⟨kv, _, hf⟩ := hp
  by_cases hres : reservedFields.contains kv.1
  · rw [if_pos hres] at hf
    exact Option.noConfusion hf
  · rw [if_neg hres] at hf
    match hv : kv.2 with
    | JsVal.prim q =>
      rw [hv] at hf
      have hpq : p = (kv.1, q) := (Option.some.injEq _ _ ▸ hf).symm
      apply hres
      have hmem1 : kv.1 ∈ reservedFields := by rw [hpq] at hmem; exact hmem
      exact List.elem_iff.mpr hmem1
    | JsVal.nullv => rw [hv] at hf; exact Option.noConfusion hf
    | JsVal.undef => rw [hv] at hf; exact Option.noConfusion hf
    | JsVal.objv => rw [hv] at hf; exact Option.noConfusion hf
    | JsVal.arrv => rw [hv] at hf; exact Option.noConfusion hf

/-- A reserved key looks up to `none` in the sanitized user meta. -/
theorem metaGet_sanitizeMeta_reserved (meta : List (String × JsVal))
    (k : String) (hk : k ∈ reservedFields) :
    metaGet (sanitizeMeta meta) k = none := by
  unfold metaGet
  apply lookup_eq_none_of_keys_ne
  intro p hp
  intro hpk
  exact sanitizeMeta_keys_not_reserved meta p (List.mem_reverse.mp hp) (hpk ▸ hk)

/-- The system-assigned value of each reserved metadata field, written from
the spec's §3 vector-record description. -/
def systemValueOf (chunk : CodeChunk) (idx : Nat) (file repoId stateId : String)
    (userId : Option String) (timestamp : String) (k : String) : Option Prim :=
  if k = "id" then some (Prim.str chunk.id)
  else if k = "category" then some (Prim.str "repository")
  else if k = "repositoryId" then some (Prim.str stateId)
  else if k = "repoId" then some (Prim.str repoId)
  else if k = "workspaceId" then some (Prim.str "workspace")
  else if k = "userId" then some (Prim.str (userIdOrSystem userId))
  else if k = "timestamp" then some (Prim.str timestamp)
  else if k = "filePath" then some (Prim.str file)
  else if k = "fileType" then some (Prim.str (extName file))
  else if k = "chunkIndex" then some (Prim.num (idx : ℚ))
  else if k = "chunkType" then some (Prim.str chunk.type)
  else if k = "parentId" then some (Prim.str file)
  else if k = "functionName" then some (Prim.str (functionNameOf chunk.id))
  else if k = "startLine" then some (Prim.num (chunk.startLine : ℚ))
  else if k = "endLine" then some (Prim.num (chunk.endLine : ℚ))
  else none

/-- C4: in the metadata of every record a job stores (each record's metadata
is `chunkMetadata` of the job's sanitized meta — see `buildRecordsAux`),
user-supplied meta can never overwrite a reserved key: every reserved field
carries its system-assigned value, whatever the raw user `meta` was. -/
theorem reserved_fields_never_overwritten
    (meta : List (String × JsVal)) (chunk : CodeChunk) (idx : Nat)
    (file repoId stateId : String) (userId : Option String) (timestamp : String)
    (k : String) (hk : k ∈ reservedFields) :
    metaGet
        (chunkMetadata (sanitizeMeta meta) chunk idx file repoId stateId userId
          timestamp) k
      = systemValueOf chunk idx file repoId stateId userId timestamp k := by
  have hnone := metaGet_sanitizeMeta_reserved meta k hk
  have key : metaGet
      (chunkMetadata (sanitizeMeta meta) chunk idx file repoId stateId userId
        timestamp) k =
      match metaGet [("id", Prim.str chunk.id), ("category", Prim.str "repository"),
          ("repositoryId", Prim.str stateId), ("repoId", Prim.str repoId)] k with
      | some v => some v
      | none =>
        match metaGet (sanitizeMeta meta) k with
        | some v => some v
        | none => metaGet (baseMetadataList chunk idx file stateId userId timestamp) k := by
    unfold chunkMetadata
    rw [metaGet_append, metaGet_append]
  rw [key, hnone]
  simp only [reservedFields, List.mem_cons, List.not_mem_nil, or_false] at hk
  rcases hk with rfl | rfl | rfl | rfl | rfl | rfl | rfl | rfl | rfl | rfl |
    rfl | rfl | rfl | rfl | rfl <;>
    simp [metaGet, List.lookup, baseMetadataList, systemValueOf]

/-- C4 witness: a job meta that tries to shadow `parentId` and `repoId` is
ignored — the stored record still carries the system values. -/
theorem reserved_fields_never_overwritten_witness :
    metaGet
        (chunkMetadata
          (sanitizeMeta
            [("parentId", JsVal.prim (Prim.str "evil")),
             ("repoId", JsVal.prim (Prim.str "evil")),
             ("team", JsVal.prim (Prim.str "backend"))])
          ⟨"src/a.ts:f:function_declaration:L3", "function_declaration",
            "function f() {}", 3, 5⟩
          0 "src/a.ts" "repo1" "state1" none "2026-01-01T00:00:00.000Z")
        "parentId"
      = systemValueOf
          ⟨"src/a.ts:f:function_declaration:L3", "function_declaration",
            "function f() {}", 3, 5⟩
          0 "src/a.ts" "repo1" "state1" none "2026-01-01T00:00:00.000Z"
          "parentId" :=
  reserved_fields_never_overwritten _ _ 0 _ _ _ none _ "parentId" (by decide)

/-- A stale chunk vector left over from a previous ingestion of
`src/b.ts` in repo `repo1`: its id is the chunk id
`"src/b.ts:b:function_declaration:L1"`, not the bare path. -/
def staleChunkRecord : VectorRecord :=
  { id := "src/b.ts:b:function_declaration:L1",
    content := "function b() {}",
    vector := [],
    metadata := [("parentId", Prim.str "src/b.ts"),
                 ("repoId", Prim.str "repo1")] }

/-- A worker environment for the deletion scenarios: reading and splitting
succeed only for `src/c.ts`. -/
def delEnv : WorkerEnv :=
  { readFile := fun f => if f = "src/c.ts" then some "function c() {}" else none,
    split := fun f content =>
      if f = "src/c.ts" then
        [⟨"src/c.ts:c:function_declaration:L1", "function_declaration",
          content, 1, 1⟩]
      else [],
    embed := fun _ => [],
    timestamp := "2026-01-01T00:00:00.000Z",
    batchSize := 1000 }

/-- Storage state before the deletion-scenario job: the vector store holds the
stale chunk of `src/b.ts` and `lastProcessedCommit` is an older sha. -/
def delState : SystemState :=
  { vstore := [staleChunkRecord],
    cstore := [],
    repoState := { id := "state1", repoUrl := "https://example.com/r.git",
                   localPath := "/repos/state1",
                   lastProcessedCommit := some "oldsha" } }

/-- Diff for the C1 scenario: `src/c.ts` added, `src/b.ts` deleted. -/
def c1Changes : Changes :=
  { added := ["src/c.ts"], modified := [], deleted := ["src/b.ts"],
    renamed := [] }

/-- Diff for the C2 scenario: only a deletion, nothing added or modified. -/
def c2Changes : Changes :=
  { added := [], modified := [], deleted := ["src/b.ts"], renamed := [] }

/-- C1 at the failing input: a job whose commit deleted `src/b.ts` (and added
`src/c.ts`, so the short-circuit does not apply) completes, yet the vector
store still contains a record with `parentId = "src/b.ts"` and
`repoId = "repo1"`.  The worker's cleanup is `deleteDocuments(deletedPaths)`
— a delete by vector **id** — and chunk ids (`path:name:type:Lline`) never
equal the bare path, so nothing is removed; `deleteByFilter({repoId,
parentId})` is never invoked. -/
theorem deleted_file_vectors_survive :
    (process delEnv "repo1" none [] c1Changes "newsha" delState).toOption.map
        (fun p => (p.1,
          p.2.vstore.any (fun r =>
            metaGet r.metadata "parentId" == some (Prim.str "src/b.ts") &&
              metaGet r.metadata "repoId" == some (Prim.str "repo1")))) =
      some (ProcessResult.completed, true) := by
  rfl

/-- C2 counterexample: on a job whose diff has no added and no modified files
but one deleted file, `process` returns the "no changes" result with the
state completely untouched — the deleted path's vectors are still present and
`lastProcessedCommit` still holds the old sha, contradicting the claim that
deletions are applied and the commit advanced before the "no changes"
return. -/
theorem no_changes_skips_deletions_counterexample :
    process delEnv "repo1" none [] c2Changes "newsha" delState =
        Except.ok (ProcessResult.noChanges, delState) ∧
      (delState.vstore.filter (fun r =>
          metaGet r.metadata "parentId" == some (Prim.str "src/b.ts"))).length = 1 ∧
      delState.repoState.lastProcessedCommit ≠ some "newsha" := by
  refine ⟨rfl, rfl, ?_⟩
  decide

/-- C2 amended: when the diff yields no added and no modified files the worker
returns the "no changes" result immediately — it performs no vector-store
deletion for deleted or renamed paths and leaves `lastProcessedCommit` (and
all other state) unchanged. -/
theorem no_changes_short_circuit_amended
    (env : WorkerEnv) (repoId : String) (userId : Option String)
    (meta : List (String × JsVal)) (changes : Changes) (currentCommit : String)
    (st : SystemState)
    (hadd : changes.added = []) (hmod : changes.modified = []) :
    process env repoId userId meta changes currentCommit st =
      Except.ok (ProcessResult.noChanges, st) := by
  unfold process
  rw [hadd, hmod]
  rfl

/-- C2 amended witness: the concrete deletion-only job takes the immediate
"no changes" return. -/
theorem no_changes_short_circuit_amended_witness :
    process delEnv "repo1" none [] c2Changes "newsha" delState =
      Except.ok (ProcessResult.noChanges, delState) :=
  no_changes_short_circuit_amended delEnv "repo1" none [] c2Changes "newsha"
    delState rfl rfl

/-- JS truthiness of a primitive metadata value (`if (pid)`): empty string,
zero and `false` are falsy. -/
def truthyPrim : Prim → Bool
  | Prim.str s => !(s == "")
  | Prim.num q => !(q == 0)
  | Prim.bool b => b

/-- JS `String(...)` of a primitive.  Stored `parentId` values are always
strings (the processor sets `parentId := filePath`); the number rendering
here is best-effort for integral values only. -/
def primToStr : Prim → String
  | Prim.str s => s
  | Prim.num q => if q.den = 1 then toString q.num else toString q
  | Prim.bool b => cond b "true" "false"

/-- The parent id a search hit contributes, per the retriever's
`const pid = res.metadata.parentId; if (pid) ... String(pid)`
(parent-child-retriever.service.ts:332-334): the `parentId` metadata value
when present and truthy, stringified. -/
def pidOf (r : VectorRecord) : Option String :=
  match metaGet r.metadata "parentId" with
  | some p => if truthyPrim p then some (primToStr p) else none
  | none => none

/-- The retriever's result shape (`RetrievedChunk`): id, content, optional
repoId, metadata. -/
structure RetrievedChunk where
  id : String
  content : String
  repoId : Option Prim
  metadata : List (String × Prim)
deriving DecidableEq, Repr

/-- The orphan fallback entry built from a child hit with truthy content and
no parent (parent-child-retriever.service.ts:343-348). -/
def orphanOf (r : VectorRecord) : RetrievedChunk :=
  { id := r.id, content := r.content,
    repoId := metaGet r.metadata "repoId", metadata := r.metadata }

/-- A parent blob mapped to the retriever result shape
(parent-child-retriever.service.ts:363-368). -/
def blobToChunk (b : ContentBlob) : RetrievedChunk :=
  { id := b.id, content := b.content,
    repoId := some (Prim.str b.repoId), metadata := b.metadata }

/-- The child-walking loop of `ParentChildRetrieverService.retrieve`
(parent-child-retriever.service.ts:328-353): walk the hits in returned
order; a truthy `parentId` is added to the set of unique parent ids; a hit
with no parent and no content is skipped; a hit with no parent but content
is pushed as an orphan; after each non-skipped hit the loop breaks once
`parentIds.size ≥ k`. -/
def collectParents (k : Nat) : List VectorRecord → List String →
    List RetrievedChunk → (List String × List RetrievedChunk)
  | [], pids, orphans => (pids, orphans)
  | r :: rest, pids, orphans =>
    match pidOf r with
    | some pid =>
      let pids1 := if pids.contains pid then pids else pids ++ [pid]
      if k ≤ pids1.length then (pids1, orphans)
      else collectParents k rest pids1 orphans
    | none =>
      if r.content = "" then collectParents k rest pids orphans
      else
        let orphans1 := orphans ++ [orphanOf r]
        if k ≤ pids.length then (pids, orphans1)
        else collectParents k rest pids orphans1

/-- `ParentChildRetrieverService.retrieve`
(parent-child-retriever.service.ts:304-372): search children with
`similaritySearch(queryVector, k * 3, filter)`, collect unique parent ids and
orphans, and return the parents' blobs via `getParents` when at least one
parent id was collected, the orphans otherwise. -/
def retrieve (vstore : VStore) (cstore : CStore) (k : Nat)
    (filter : List (String × Prim)) : List RetrievedChunk :=
  let childResults := similaritySearch vstore (k * 3) filter
  let res := collectParents k childResults [] []
  if 0 < res.1.length then (getParents cstore res.1).map blobToChunk
  else res.2

/-- `ParentChildRetrieverService.retrieveChunks`
(parent-child-retriever.service.ts:399-434): search with `k` directly, drop
hits with falsy content, keep returned order. -/
def retrieveChunks (vstore : VStore) (k : Nat)
    (filter : List (String × Prim)) : List RetrievedChunk :=
  ((similaritySearch vstore k filter).filter (fun r => !(r.content == ""))).map
    (fun r => { id := r.id, content := r.content,
                repoId := metaGet r.metadata "repoId", metadata := r.metadata })

/-- The unique parent ids of claim C3, in the spec's words: walk the results
in order, collect unique `parentId` values, stop once `k` unique parents are
collected — i.e. the first `k` distinct parent ids. -/
def specUniqueParents (k : Nat) (results : List VectorRecord) : List String :=
  (dedupFirst (results.filterMap pidOf)).take k

/-- The orphan hits of claim C3: results with no (truthy) parentId but
non-empty content, in returned order. -/
def specOrphans (results : List VectorRecord) : List RetrievedChunk :=
  (results.filter (fun r => (pidOf r).isNone && !(r.content == ""))).map orphanOf

/-- Parent-mode retrieve exactly as claim C3 words it, including the final
clause "returns those as the result in insertion order of the parent ids":
the parents' blobs are listed following the collected parent-id order.
Written from the spec's words, to be compared with `retrieve`. -/
def claimC3Retrieve (vstore : VStore) (cstore : CStore) (k : Nat)
    (filter : List (String × Prim)) : List RetrievedChunk :=
  let results := similaritySearch vstore (3 * k) filter
  let pids := specUniqueParents k results
  if pids.isEmpty then specOrphans results
  else pids.filterMap (fun pid => (cstore.find? (fun b => b.id == pid)).map blobToChunk)

/-- Claim C3 as amended: identical, except that the parents' blobs come back
in the order the content store returns them (`getParents` = `findBy(In ids)`,
table order), not in insertion order of the parent ids. -/
def amendedC3Retrieve (vstore : VStore) (cstore : CStore) (k : Nat)
    (filter : List (String × Prim)) : List RetrievedChunk :=
  let results := similaritySearch vstore (3 * k) filter
  let pids := specUniqueParents k results
  if pids.isEmpty then specOrphans results
  else (getParents cstore pids).map blobToChunk

/-- First-occurrence deduplication commutes with filtering by a value
predicate. -/
theorem dedupFirst_filter {α : Type} [DecidableEq α] (p : α → Bool)
    (l : List α) : dedupFirst (l.filter p) = (dedupFirst l).filter p := by
  induction l with
  | nil => rfl
  | cons b rest ih =>
    by_cases hb : p b
    · rw [List.filter_cons_of_pos hb]
      rw [dedupFirst, dedupFirst, ih, List.filter_cons_of_pos hb]
      rw [List.filter_filter, List.filter_filter]
      apply congrArg
      apply List.filter_congr
      intro x _
      exact Bool.and_comm _ _
    · rw [List.filter_cons_of_neg hb]
      rw [ih, dedupFirst, List.filter_cons_of_neg hb]
      rw [List.filter_filter]
      apply List.filter_congr
      intro x _
      by_cases hx : x = b
      · subst hx
        simp [hb]
      · simp [hx]

/-- Characterization of the parent-id component of the child-walking loop:
starting below the break threshold, the collected ids are the starting ids
followed by the first `k - pids.length` fresh distinct parent ids of the
remaining hits. -/
theorem collectParents_fst (k : Nat) (rs : List VectorRecord) :
    ∀ (pids : List String) (orphans : List RetrievedChunk),
      pids.length < k →
      (collectParents k rs pids orphans).1 =
        pids ++ (dedupFirst ((rs.filterMap pidOf).filter
            (fun p => !(pids.contains p)))).take (k - pids.length) := by
  induction rs with
  | nil =>
    intro pids orphans _
    simp [collectParents, dedupFirst]
  | cons r rest ih =>
    intro pids orphans hlt
    cases hpid : pidOf r with
    | none =>
      simp only [collectParents, hpid, List.filterMap_cons_none hpid]
      by_cases hc : r.content = ""
      · rw [if_pos hc]
        exact ih pids orphans hlt
      · rw [if_neg hc, if_neg (by omega)]
        exact ih pids (orphans ++ [orphanOf r]) hlt
    | some pid =>
      simp only [collectParents, hpid, List.filterMap_cons_some hpid]
      by_cases hin : pids.contains pid
      · rw [if_pos hin, if_neg (by omega)]
        rw [List.filter_cons_of_neg (by rw [hin]; simp)]
        exact ih pids orphans hlt
      · have hin0 : pids.contains pid = false := by
          revert hin
          cases pids.contains pid <;> simp
        rw [if_neg hin]
        rw [List.filter_cons_of_pos (by rw [hin0]; rfl)]
        rw [dedupFirst]
        have htake : k - pids.length = (k - pids.length - 1) + 1 := by omega
        rw [htake, List.take_succ_cons]
        by_cases hreach : k ≤ (pids ++ [pid]).length
        · rw [if_pos hreach]
          have hk1 : k - pids.length - 1 = 0 := by
            simp only [List.length_append, List.length_cons,
              List.length_nil] at hreach
            omega
          rw [hk1, List.take_zero]
        · rw [if_neg hreach]
          have hlt1 : (pids ++ [pid]).length < k := by omega
          rw [ih (pids ++ [pid]) orphans hlt1]
          have hdedup :
              (dedupFirst ((rest.filterMap pidOf).filter
                  (fun p => !((pids ++ [pid]).contains p)))) =
                ((dedupFirst ((rest.filterMap pidOf).filter
                    (fun p => !(pids.contains p)))).filter
                  (fun b => decide (b ≠ pid))) := by
            rw [← dedupFirst_filter]
            rw [List.filter_filter]
            apply congrArg
            apply List.filter_congr
            intro x _
            by_cases hx : x = pid
            · subst hx
              simp
            · simp [hx, List.mem_append]
          rw [hdedup]
          have hlen1 : (pids ++ [pid]).length = pids.length + 1 := by simp
          rw [hlen1]
          have : k - (pids.length + 1) = k - pids.length - 1 := by omega
          rw [this, List.append_assoc]
          rfl

/-- When no hit carries a parent id, the loop never breaks (for `k ≥ 1` from
an empty id set) and collects exactly the orphan hits, in order. -/
theorem collectParents_no_parents (k : Nat) (rs : List VectorRecord) :
    ∀ (pids : List String) (orphans : List RetrievedChunk),
      pids.length < k →
      (∀ r ∈ rs, pidOf r = none) →
      collectParents k rs pids orphans = (pids, orphans ++ specOrphans rs) := by
  induction rs with
  | nil =>
    intro pids orphans _ _
    simp [collectParents, specOrphans]
  | cons r rest ih =>
    intro pids orphans hlt hall
    have hr : pidOf r = none := hall r (by simp)
    simp only [collectParents, hr]
    by_cases hc : r.content = ""
    · rw [if_pos hc]
      rw [ih pids orphans hlt (fun x hx => hall x (by simp [hx]))]
      unfold specOrphans
      rw [List.filter_cons_of_neg (by simp [hr, hc])]
    · rw [if_neg hc, if_neg (by omega)]
      rw [ih pids (orphans ++ [orphanOf r]) hlt (fun x hx => hall x (by simp [hx]))]
      unfold specOrphans
      rw [List.filter_cons_of_pos (by simp [hr, hc])]
      simp

/-- C3 amended: for `k ≥ 1`, parent-mode retrieve behaves exactly as the
claim describes — `similaritySearch(queryVector, 3k, filter)`, first `k`
unique parent ids in returned order, parents' blobs when at least one parent
id was collected, orphan hits otherwise — except that the returned parent
blobs come back in content-store (table) order rather than in insertion
order of the parent ids. -/
theorem retrieve_parent_mode_amended (vstore : VStore) (cstore : CStore)
    (k : Nat) (filter : List (String × Prim)) (hk : 1 ≤ k) :
    retrieve vstore cstore k filter = amendedC3Retrieve vstore cstore k filter := by
  simp only [retrieve, amendedC3Retrieve]
  rw [Nat.mul_comm 3 k]
  have hfst := collectParents_fst k (similaritySearch vstore (k * 3) filter)
    [] [] (by simp only [List.length_nil]; omega)
  simp only [List.length_nil, Nat.sub_zero, List.nil_append] at hfst
  have hfilter :
      ((similaritySearch vstore (k * 3) filter).filterMap pidOf).filter
          (fun p => !(([] : List String).contains p)) =
        (similaritySearch vstore (k * 3) filter).filterMap pidOf := by
    apply List.filter_eq_self.mpr
    intro a _
    rfl
  rw [hfilter] at hfst
  have hfold : (dedupFirst
      ((similaritySearch vstore (k * 3) filter).filterMap pidOf)).take k =
      specUniqueParents k (similaritySearch vstore (k * 3) filter) := rfl
  rw [hfold] at hfst
  by_cases hp : specUniqueParents k (similaritySearch vstore (k * 3) filter) = []
  · have hfm : (similaritySearch vstore (k * 3) filter).filterMap pidOf = [] := by
      unfold specUniqueParents at hp
      rcases List.take_eq_nil_iff.mp hp with h0 | hd
      · omega
      · cases hfme : (similaritySearch vstore (k * 3) filter).filterMap pidOf with
        | nil => rfl
        | cons x xs =>
          rw [hfme] at hd
          simp [dedupFirst] at hd
    have hall : ∀ r ∈ similaritySearch vstore (k * 3) filter, pidOf r = none := by
      intro r hr
      cases hpo : pidOf r with
      | none => rfl
      | some p =>
        have hmem : p ∈ (similaritySearch vstore (k * 3) filter).filterMap pidOf :=
          List.mem_filterMap.mpr ⟨r, hr, hpo⟩
        rw [hfm] at hmem
        exact absurd hmem (List.not_mem_nil p)
    rw [collectParents_no_parents k (similaritySearch vstore (k * 3) filter)
      [] [] (by simp only [List.length_nil]; omega) hall]
    rw [if_neg (by simp)]
    rw [if_pos (by rw [hp]; rfl)]
    simp
  · rw [hfst]
    rw [if_pos (List.length_pos.mpr hp)]
    rw [if_neg (by simp [hp])]

/-- A child hit whose parent is `src/auth.ts`. -/
def c3RecordA : VectorRecord :=
  { id := "src/auth.ts:f:function_declaration:L1", content := "function f() {}",
    vector := [], metadata := [("parentId", Prim.str "src/auth.ts")] }

/-- A child hit whose parent is `src/session.ts`. -/
def c3RecordB : VectorRecord :=
  { id := "src/session.ts:g:function_declaration:L2", content := "function g() {}",
    vector := [], metadata := [("parentId", Prim.str "src/session.ts")] }

/-- The blob of `src/auth.ts`, stored after `src/session.ts`. -/
def c3BlobA : ContentBlob :=
  { id := "src/auth.ts", content := "auth file", repoId := "repo1", metadata := [] }

/-- The blob of `src/session.ts`, stored first. -/
def c3BlobB : ContentBlob :=
  { id := "src/session.ts", content := "session file", repoId := "repo1",
    metadata := [] }

/-- C3 counterexample: with parent ids collected in order
`[src/auth.ts, src/session.ts]` but blobs stored in the opposite table order,
`retrieve` returns the blobs in store order — not in insertion order of the
parent ids as the claim states. -/
theorem retrieve_order_counterexample :
    retrieve [c3RecordA, c3RecordB] [c3BlobB, c3BlobA] 2 [] =
        [blobToChunk c3BlobB, blobToChunk c3BlobA] ∧
      claimC3Retrieve [c3RecordA, c3RecordB] [c3BlobB, c3BlobA] 2 [] =
        [blobToChunk c3BlobA, blobToChunk c3BlobB] ∧
      retrieve [c3RecordA, c3RecordB] [c3BlobB, c3BlobA] 2 [] ≠
        claimC3Retrieve [c3RecordA, c3RecordB] [c3BlobB, c3BlobA] 2 [] := by
  refine ⟨rfl, rfl, ?_⟩
  decide

/-- C3 amended witness: the amended equality at the concrete two-parent
scenario. -/
theorem retrieve_parent_mode_amended_witness :
    retrieve [c3RecordA, c3RecordB] [c3BlobB, c3BlobA] 2 [] =
      amendedC3Retrieve [c3RecordA, c3RecordB] [c3BlobB, c3BlobA] 2 [] :=
  retrieve_parent_mode_amended [c3RecordA, c3RecordB] [c3BlobB, c3BlobA] 2 []
    (by omega)

/-- `QueryService.normalizeK` (query.service.ts:211-223): `undefined`/`null`
→ 5; non-integer or `< 1` → 5; otherwise `Math.min(k, 100)`.  The JS number
is modelled as `ℚ`, integrality as denominator 1. -/
def normalizeK (k : Option ℚ) : Nat :=
  match k with
  | none => 5
  | some q => if q.den ≠ 1 ∨ q < 1 then 5 else min q.num.toNat 100

/-- JS object construction from a sequence of property assignments: key order
is first insertion, value is the last assignment (`metaGet`). -/
def jsObject (pairs : List (String × Prim)) : List (String × Prim) :=
  (dedupFirst (pairs.map Prod.fst)).filterMap
    (fun k => (metaGet pairs k).map (fun v => (k, v)))

/-- The filter built by `QueryService.search` / `searchChunks`
(query.service.ts:62-65): `{ repoId, ...(params.meta || {}) }`. -/
def mkFilter (repoId : String) (meta : List (String × Prim)) :
    List (String × Prim) :=
  jsObject (("repoId", Prim.str repoId) :: meta)

/-- `QueryService.search` after the embedding step: normalize `k`, build the
filter, and invoke the parent-mode retriever. -/
def searchService (vstore : VStore) (cstore : CStore) (repoId : String)
    (k : Option ℚ) (meta : List (String × Prim)) : List RetrievedChunk :=
  retrieve vstore cstore (normalizeK k) (mkFilter repoId meta)

/-- `QueryService.searchChunks` after the embedding step: normalize `k`,
build the filter, and invoke the chunk-mode retriever. -/
def searchChunksService (vstore : VStore) (repoId : String)
    (k : Option ℚ) (meta : List (String × Prim)) : List RetrievedChunk :=
  retrieveChunks vstore (normalizeK k) (mkFilter repoId meta)

/-- In a store with pairwise-distinct primary ids, at most one row matches a
one-element id list. -/
theorem length_filter_singleton_id_le_one (cstore : CStore) (p : String)
    (h : (cstore.map ContentBlob.id).Nodup) :
    (cstore.filter (fun b => [p].contains b.id)).length ≤ 1 := by
  induction cstore with
  | nil => simp
  | cons b rest ih =>
    rw [List.map_cons, List.nodup_cons] at h
    by_cases hb : ([p].contains b.id : Bool)
    · simp only [List.filter_cons, hb, if_true]
      have hbp : b.id = p := by simpa using hb
      have hrest : rest.filter (fun x => [p].contains x.id) = [] := by
        rw [List.filter_eq_nil_iff]
        intro x hx
        simp only [List.contains_cons, List.contains_nil, Bool.or_false,
          beq_iff_eq]
        intro hxp
        exact h.1 (by
          rw [hbp, ← hxp]
          exact List.mem_map_of_mem ContentBlob.id hx)
      rw [hrest]
      simp
    · have hb0 : ([p].contains b.id) = false := by
        revert hb
        cases ([p].contains b.id) <;> simp
      simp only [List.filter_cons, hb0, Bool.false_eq_true, if_false]
      exact ih h.2

/-- C7: `k` normalization and the `k = 1` boundary.  `normalizeK` maps
`undefined` to 5, non-integer or sub-1 values to 5, keeps 100, clamps values
above 100 to 100; both query-service entry points hand exactly the
normalized `k` to the retriever; and with `k = 1` parent-mode retrieval
returns at most one parent blob (when any hit carries a parent id and the
blob table has distinct ids) while chunk mode returns at most one chunk. -/
theorem normalizeK_bounds :
    normalizeK none = 5
    ∧ (∀ q : ℚ, q.den ≠ 1 ∨ q < 1 → normalizeK (some q) = 5)
    ∧ normalizeK (some 100) = 100
    ∧ (∀ q : ℚ, q.den = 1 → (100 : ℚ) < q → normalizeK (some q) = 100)
    ∧ (∀ (vstore : VStore) (cstore : CStore) (repoId : String) (kq : Option ℚ)
        (meta : List (String × Prim)),
        searchService vstore cstore repoId kq meta =
          retrieve vstore cstore (normalizeK kq) (mkFilter repoId meta))
    ∧ (∀ (vstore : VStore) (repoId : String) (kq : Option ℚ)
        (meta : List (String × Prim)),
        searchChunksService vstore repoId kq meta =
          retrieveChunks vstore (normalizeK kq) (mkFilter repoId meta))
    ∧ (∀ (vstore : VStore) (cstore : CStore) (filter : List (String × Prim)),
        (cstore.map ContentBlob.id).Nodup →
        (∃ r ∈ similaritySearch vstore (1 * 3) filter, pidOf r ≠ none) →
        (retrieve vstore cstore 1 filter).length ≤ 1)
    ∧ (∀ (vstore : VStore) (filter : List (String × Prim)),
        (retrieveChunks vstore 1 filter).length ≤ 1) := by
  refine ⟨rfl, ?_, ?_, ?_, fun _ _ _ _ _ => rfl, fun _ _ _ _ => rfl, ?_, ?_⟩
  · intro q h
    simp only [normalizeK]
    rw [if_pos h]
  · show normalizeK (some 100) = 100
    simp only [normalizeK]
    rw [if_neg (by norm_num)]
    rfl
  · intro q hden hgt
    simp only [normalizeK]
    rw [if_neg (by
      rintro (h | h)
      · exact h hden
      · linarith)]
    have hq : (q.num : ℚ) = q := (Rat.den_eq_one_iff q).mp hden
    have h100 : (100 : ℤ) < q.num := by
      rw [← hq] at hgt
      exact_mod_cast hgt
    have hle : 100 ≤ q.num.toNat := by omega
    omega
  · intro vstore cstore filter hnd hhit
    simp only [retrieve]
    have hone : (1 : Nat) * 3 = 3 := by norm_num
    have hfst := collectParents_fst 1 (similaritySearch vstore (1 * 3) filter)
      [] [] (by simp only [List.length_nil]; omega)
    simp only [List.length_nil, Nat.sub_zero, List.nil_append] at hfst
    have hfilter :
        ((similaritySearch vstore (1 * 3) filter).filterMap pidOf).filter
            (fun p => !(([] : List String).contains p)) =
          (similaritySearch vstore (1 * 3) filter).filterMap pidOf := by
      apply List.filter_eq_self.mpr
      intro a _
      rfl
    rw [hfilter] at hfst
    obtain ⟨r, hr, hpid⟩ := hhit
    cases hpo : pidOf r with
    | none => exact absurd hpo hpid
    | some p =>
      have hmem : p ∈ (similaritySearch vstore (1 * 3) filter).filterMap pidOf :=
        List.mem_filterMap.mpr ⟨r, hr, hpo⟩
      cases hX : (similaritySearch vstore (1 * 3) filter).filterMap pidOf with
      | nil =>
        rw [hX] at hmem
        exact absurd hmem (List.not_mem_nil p)
      | cons x xs =>
        rw [hX] at hfst
        have hone1 : (collectParents 1
            (similaritySearch vstore (1 * 3) filter) [] []).1 = [x] := by
          rw [hfst, dedupFirst, List.take_succ_cons, List.take_zero]
        rw [hone1]
        rw [if_pos (by simp)]
        rw [List.length_map]
        exact length_filter_singleton_id_le_one cstore x hnd
  · intro vstore filter
    unfold retrieveChunks
    rw [List.length_map]
    exact le_trans (List.length_filter_le _ _)
      (by
        unfold similaritySearch
        exact List.length_take_le 1 _)

/-- C7 witness: the normalization rules and the `k = 1` bounds at concrete
inputs — `k = 0` defaults to 5, `k = 250` clamps to 100, and the concrete
one-parent retrieval returns at most one blob. -/
theorem normalizeK_bounds_witness :
    normalizeK none = 5
    ∧ normalizeK (some 0) = 5
    ∧ normalizeK (some 100) = 100
    ∧ normalizeK (some 250) = 100
    ∧ (retrieve [c3RecordA] [c3BlobA] 1 []).length ≤ 1
    ∧ (retrieveChunks [c3RecordA] 1 []).length ≤ 1 :=
  ⟨normalizeK_bounds.1,
   normalizeK_bounds.2.1 0 (Or.inr (by norm_num)),
   normalizeK_bounds.2.2.1,
   normalizeK_bounds.2.2.2.1 250 (by norm_num) (by norm_num),
   normalizeK_bounds.2.2.2.2.2.2.1 [c3RecordA] [c3BlobA] [] (by decide)
     ⟨c3RecordA, by decide, by decide⟩,
   normalizeK_bounds.2.2.2.2.2.2.2 [c3RecordA] []⟩
